import Mathlib

/-!
Verification of the greedy point-feature label placement algorithm
(`placeLabels` / `hasOverlap` in `Source.cpp` and `main.cpp`).

Coordinates are modelled as rationals (the C++ uses `double`; all the
algorithmic claims are about exact arithmetic on the configured constants).
Boxes mirror `boost::geometry::model::box`: a stored `min_corner` and
`max_corner`, with no normalization performed by the constructor.
`bg::intersects` on two boxes is `¬ disjoint`, where boxes are disjoint
iff on some axis one box's stored max coordinate is strictly below the
other box's stored min coordinate — i.e. closed-interval intersection:
boxes that merely touch on a boundary DO intersect.
-/

unseal Rat.add Rat.sub Rat.mul Rat.inv

/-- Mirror of `point_t = bg::model::point<double, 2, cartesian>`. -/
structure point_t where
  x : ℚ
  y : ℚ
deriving DecidableEq

/-- Mirror of `box_t = bg::model::box<point_t>`: stored corners, not normalized. -/
structure box_t where
  min_corner : point_t
  max_corner : point_t
deriving DecidableEq

/-- Mirror of `struct labeled_point`. -/
structure labeled_point where
  point : point_t
  label : String
  label_box : box_t
deriving DecidableEq

/-- One dimension of `bg::disjoint` for two boxes: strictly separated intervals. -/
def bgDisjointDim (min1 max1 min2 max2 : ℚ) : Bool :=
  max1 < min2 || max2 < min1

/-- `bg::intersects(a, b)` for two boxes: not disjoint on either axis. -/
def bgIntersects (a b : box_t) : Bool :=
  !(bgDisjointDim a.min_corner.x a.max_corner.x b.min_corner.x b.max_corner.x
    || bgDisjointDim a.min_corner.y a.max_corner.y b.min_corner.y b.max_corner.y)

/-- Mirror of `hasOverlap`: scan the placed labels, report the first box
intersection found. -/
def hasOverlap (candidate : box_t) (placed_labels : List labeled_point) : Bool :=
  placed_labels.any fun placed => bgIntersects candidate placed.label_box

/-- The candidate box built in the inner loop of `placeLabels`:
`corner1 = pt + (dx, dy)`, `corner2 = corner1 + (w, h)`, stored in that order. -/
def candidate_box (w h : ℚ) (pt : point_t) (off : ℚ × ℚ) : box_t :=
  let corner1 : point_t := ⟨pt.x + off.1, pt.y + off.2⟩
  let corner2 : point_t := ⟨corner1.x + w, corner1.y + h⟩
  ⟨corner1, corner2⟩

/-- The inner candidate loop of `placeLabels`: try the offsets in order against
the current result, return the first non-overlapping placement, else none. -/
def tryOffsets (w h : ℚ) (pt : point_t) (label_str : String)
    (result : List labeled_point) : List (ℚ × ℚ) → Option labeled_point
  | [] => none
  | off :: rest =>
    let cb := candidate_box w h pt off
    if hasOverlap cb result then tryOffsets w h pt label_str result rest
    else some ⟨pt, label_str, cb⟩

/-- One iteration of the outer loop of `placeLabels`: append the placement for
`entry` if one was found, otherwise keep the result unchanged. -/
def placeStep (w h : ℚ) (offs : List (ℚ × ℚ)) (result : List labeled_point)
    (entry : point_t × String) : List labeled_point :=
  match tryOffsets w h entry.1 entry.2 result offs with
  | some lp => result ++ [lp]
  | none => result

/-- The outer loop of `placeLabels`, processing the input in order while
carrying the accumulated result. -/
def placeLabelsAux (w h : ℚ) (offs : List (ℚ × ℚ)) :
    List labeled_point → List (point_t × String) → List labeled_point
  | result, [] => result
  | result, entry :: rest => placeLabelsAux w h offs (placeStep w h offs result entry) rest

/-- `placeLabels` with the label size and offset sequence made explicit
parameters (they are hard-coded constants inside the C++ function bodies). -/
def placeLabelsWith (w h : ℚ) (offs : List (ℚ × ℚ))
    (input_points : List (point_t × String)) : List labeled_point :=
  placeLabelsAux w h offs [] input_points

/-- `const double label_width = 6.0;` in `Source.cpp`. -/
def label_width : ℚ := 6

/-- `const double label_height = 2.0;` in `Source.cpp`. -/
def label_height : ℚ := 2

/-- The offset vector of `Source.cpp`: TR, TL, BR, BL. -/
def offsets : List (ℚ × ℚ) :=
  [(1, 1), (-1 - label_width, 1), (1, -1 - label_height),
   (-1 - label_width, -1 - label_height)]

/-- `placeLabels` from `Source.cpp` (label size 6 × 2). -/
def placeLabels (input_points : List (point_t × String)) : List labeled_point :=
  placeLabelsWith label_width label_height offsets input_points

/-- `const double label_width = 0.4;` in `main.cpp`. -/
def main_label_width : ℚ := 2/5

/-- `const double label_height = 0.2;` in `main.cpp`. -/
def main_label_height : ℚ := 1/5

/-- The offset vector of `main.cpp`: TR, TL, BR, BL with 0.2 gaps. -/
def main_offsets : List (ℚ × ℚ) :=
  [(1/5, 1/5), (-1/5 - main_label_width, 1/5), (1/5, -1/5 - main_label_height),
   (-1/5 - main_label_width, -1/5 - main_label_height)]

/-- `placeLabels` from `main.cpp` (label size 0.4 × 0.2). -/
def main_placeLabels (input_points : List (point_t × String)) : List labeled_point :=
  placeLabelsWith main_label_width main_label_height main_offsets input_points

/-- The (point, label) identity of a result entry, for the subsequence
property. -/
def result_id (lp : labeled_point) : point_t × String := (lp.point, lp.label)

/-- Overlap as worded by the spec: the projections intersect with non-zero
measure on both axes (strict inequalities), so zero-area touching does not
count. Stated only to compare against the predicate the code implements. -/
def spec_overlap (a b : box_t) : Bool :=
  (max a.min_corner.x b.min_corner.x < min a.max_corner.x b.max_corner.x) &&
  (max a.min_corner.y b.min_corner.y < min a.max_corner.y b.max_corner.y)

/-- The placement produced for the single point (5, 5) labelled "P" by
`Source.cpp`'s configuration: top-right box with corners (6, 6) and (12, 8). -/
def lpP : labeled_point := ⟨⟨5, 5⟩, "P", ⟨⟨6, 6⟩, ⟨12, 8⟩⟩⟩

/-- Four points whose first (top-right) candidates exactly occupy all four
candidate positions of the origin, used to exhibit a dropped point. -/
def demo_blockers : List (point_t × String) :=
  [(⟨0, 0⟩, "A"), (⟨-8, 0⟩, "B"), (⟨0, -4⟩, "C"), (⟨-8, -4⟩, "D")]

/-- A far-away trailing input entry, used to show processing continues after
a dropped point. -/
def demo_tail : List (point_t × String) := [(⟨20, 20⟩, "F")]

/-- The sample input built in `main()` of `Source.cpp`. -/
def sample_points : List (point_t × String) :=
  [(⟨1, 1⟩, "Label A"), (⟨5, 5⟩, "Label B"), (⟨3, 8⟩, "Label C"),
   (⟨8, 2⟩, "Very Long Label D"), (⟨2, 2⟩, "Label E")]

section Lemmas

/-- `bgIntersects` holds iff the stored corner intervals meet on both axes,
as closed intervals. -/
lemma bgIntersects_true_iff (a b : box_t) :
    bgIntersects a b = true ↔
      (b.min_corner.x ≤ a.max_corner.x ∧ a.min_corner.x ≤ b.max_corner.x) ∧
      (b.min_corner.y ≤ a.max_corner.y ∧ a.min_corner.y ≤ b.max_corner.y) := by
  simp [bgIntersects, bgDisjointDim, not_or, not_lt]

/-- Box intersection is symmetric. -/
lemma bgIntersects_comm (a b : box_t) : bgIntersects a b = bgIntersects b a := by
  rw [Bool.eq_iff_iff, bgIntersects_true_iff, bgIntersects_true_iff]
  tauto

/-- An accepted candidate records the point and label of its input entry,
carries a box generated from one of the offsets, and that box is free of
overlap with the current result. -/
lemma tryOffsets_some {w h : ℚ} {pt : point_t} {l : String}
    {res : List labeled_point} {lp : labeled_point} :
    ∀ {offs : List (ℚ × ℚ)}, tryOffsets w h pt l res offs = some lp →
      lp.point = pt ∧ lp.label = l ∧
      ∃ off ∈ offs, lp.label_box = candidate_box w h pt off ∧
        hasOverlap (candidate_box w h pt off) res = false := by
  intro offs
  induction offs with
  | nil => intro hcontra; simp [tryOffsets] at hcontra
  | cons off rest ih =>
    intro hsome
    rw [tryOffsets] at hsome
    by_cases hov : hasOverlap (candidate_box w h pt off) res = true
    · simp only [hov, if_true] at hsome
      obtain ⟨hp, hl, o, ho, hbox, hfree⟩ := ih hsome
      exact ⟨hp, hl, o, List.mem_cons_of_mem _ ho, hbox, hfree⟩
    · rw [Bool.not_eq_true] at hov
      simp only [hov, Bool.false_eq_true, if_false, Option.some.injEq] at hsome
      subst hsome
      exact ⟨rfl, rfl, off, List.mem_cons_self _ _, rfl, hov⟩

/-- The candidate loop fails exactly when every offset's candidate box
overlaps the current result. -/
lemma tryOffsets_eq_none_iff {w h : ℚ} {pt : point_t} {l : String}
    {res : List labeled_point} :
    ∀ {offs : List (ℚ × ℚ)}, tryOffsets w h pt l res offs = none ↔
      ∀ off ∈ offs, hasOverlap (candidate_box w h pt off) res = true := by
  intro offs
  induction offs with
  | nil => simp [tryOffsets]
  | cons off rest ih =>
    rw [tryOffsets]
    by_cases hov : hasOverlap (candidate_box w h pt off) res = true
    · simp [hov, ih]
    · rw [Bool.not_eq_true] at hov
      simp [hov]

/-- Splitting the input splits the outer loop. -/
lemma placeLabelsAux_append (w h : ℚ) (offs : List (ℚ × ℚ))
    (res : List labeled_point) (p s : List (point_t × String)) :
    placeLabelsAux w h offs res (p ++ s) =
      placeLabelsAux w h offs (placeLabelsAux w h offs res p) s := by
  induction p generalizing res with
  | nil => rfl
  | cons e t ih =>
    simp only [List.cons_append, placeLabelsAux]
    exact ih (placeStep w h offs res e)

/-- The accumulated result is only ever appended to. -/
lemma placeLabelsAux_pref (w h : ℚ) (offs : List (ℚ × ℚ))
    (res : List labeled_point) (rest : List (point_t × String)) :
    res <+: placeLabelsAux w h offs res rest := by
  induction rest generalizing res with
  | nil => exact ⟨[], List.append_nil res⟩
  | cons e t ih =>
    refine List.IsPrefix.trans ?_ (ih (placeStep w h offs res e))
    unfold placeStep
    cases tryOffsets w h e.1 e.2 res offs with
    | none => exact ⟨[], List.append_nil res⟩
    | some lp => exact ⟨[lp], rfl⟩

/-- If a candidate is free of overlap against the result, its box intersects
no placed box. -/
lemma hasOverlap_eq_false_iff {cb : box_t} {res : List labeled_point} :
    hasOverlap cb res = false ↔ ∀ p ∈ res, bgIntersects cb p.label_box = false := by
  simp [hasOverlap]

/-- The outer loop preserves pairwise non-intersection of the accumulated
result. -/
lemma placeLabelsAux_pairwise {w h : ℚ} {offs : List (ℚ × ℚ)}
    {res : List labeled_point} (rest : List (point_t × String))
    (hok : res.Pairwise fun a b => bgIntersects a.label_box b.label_box = false) :
    (placeLabelsAux w h offs res rest).Pairwise
      fun a b => bgIntersects a.label_box b.label_box = false := by
  induction rest generalizing res with
  | nil => exact hok
  | cons e t ih =>
    refine ih ?_
    unfold placeStep
    cases htry : tryOffsets w h e.1 e.2 res offs with
    | none => exact hok
    | some lp =>
      obtain ⟨_, _, off, _, hbox, hfree⟩ := tryOffsets_some htry
      rw [List.pairwise_append]
      refine ⟨hok, List.pairwise_singleton _ _, ?_⟩
      intro a ha b hb
      rw [List.mem_singleton] at hb
      subst hb
      rw [bgIntersects_comm, hbox]
      exact hasOverlap_eq_false_iff.mp hfree a ha

/-- The (point, label) projection of the produced result is a subsequence of
the projection of the accumulator followed by the remaining input. -/
lemma placeLabelsAux_sublist (w h : ℚ) (offs : List (ℚ × ℚ))
    (res : List labeled_point) (rest : List (point_t × String)) :
    ((placeLabelsAux w h offs res rest).map result_id).Sublist
      (res.map result_id ++ rest) := by
  induction rest generalizing res with
  | nil => simp [placeLabelsAux]
  | cons e t ih =>
    simp only [placeLabelsAux]
    refine (ih (placeStep w h offs res e)).trans ?_
    have hstep : ((placeStep w h offs res e).map result_id ++ t).Sublist
        (res.map result_id ++ e :: t) := by
      unfold placeStep
      cases htry : tryOffsets w h e.1 e.2 res offs with
      | none =>
        exact List.Sublist.append_left (List.sublist_cons_self _ _) _
      | some lp =>
        obtain ⟨hp, hl, _⟩ := tryOffsets_some htry
        have : result_id lp = e := by
          rw [result_id, hp, hl]
        simp [this]
    exact hstep

/-- Every entry of the produced result comes from the accumulator or carries
a box generated from one of the configured offsets. -/
lemma placeLabelsAux_mem_shape {w h : ℚ} {offs : List (ℚ × ℚ)}
    {res : List labeled_point} {rest : List (point_t × String)}
    {lp : labeled_point} (hmem : lp ∈ placeLabelsAux w h offs res rest) :
    lp ∈ res ∨ ∃ pt off, off ∈ offs ∧ lp.label_box = candidate_box w h pt off := by
  induction rest generalizing res with
  | nil => exact Or.inl hmem
  | cons e t ih =>
    rcases ih hmem with hstep | hshape
    · unfold placeStep at hstep
      cases htry : tryOffsets w h e.1 e.2 res offs with
      | none => rw [htry] at hstep; exact Or.inl hstep
      | some lp' =>
        rw [htry] at hstep
        rcases List.mem_append.mp hstep with hres | hsingle
        · exact Or.inl hres
        · rw [List.mem_singleton] at hsingle
          subst hsingle
          obtain ⟨_, _, off, ho, hbox, _⟩ := tryOffsets_some htry
          exact Or.inr ⟨e.1, off, ho, hbox⟩
    · exact Or.inr hshape

/-- When the current result is empty, the first candidate offset is accepted
unconditionally. -/
lemma tryOffsets_nil_res (w h : ℚ) (pt : point_t) (l : String) (off : ℚ × ℚ)
    (rest : List (ℚ × ℚ)) :
    tryOffsets w h pt l [] (off :: rest) = some ⟨pt, l, candidate_box w h pt off⟩ := by
  rw [tryOffsets]
  simp [hasOverlap]

/-- With an empty offset sequence no candidate ever exists, so nothing is
placed and the accumulator is returned unchanged. -/
lemma placeLabelsAux_nil_offs (w h : ℚ) (res : List labeled_point)
    (rest : List (point_t × String)) : placeLabelsAux w h [] res rest = res := by
  induction rest generalizing res with
  | nil => rfl
  | cons e t ih =>
    simp only [placeLabelsAux, placeStep, tryOffsets]
    exact ih res

/-- The size of every placed box is the configured label size. -/
lemma box_size_of_mem {w h : ℚ} {offs : List (ℚ × ℚ)}
    {input : List (point_t × String)} {lp : labeled_point}
    (hmem : lp ∈ placeLabelsWith w h offs input) :
    lp.label_box.max_corner.x - lp.label_box.min_corner.x = w ∧
    lp.label_box.max_corner.y - lp.label_box.min_corner.y = h := by
  rcases placeLabelsAux_mem_shape hmem with hnil | ⟨pt, off, _, hbox⟩
  · simp at hnil
  · rw [hbox]
    constructor <;> simp [candidate_box]

end Lemmas

section Claims

/-- Claim C1: every two entries of the result of `placeLabels` have
non-intersecting boxes under the overlap predicate the code implements
(`bg::intersects`, scanned by `hasOverlap`). -/
theorem C1_no_overlap_invariant (input : List (point_t × String)) :
    (placeLabels input).Pairwise
      fun a b => bgIntersects a.label_box b.label_box = false :=
  placeLabelsAux_pairwise input List.Pairwise.nil

/-- Claim C2, counterexample: two boxes that merely touch along an edge
(zero-area intersection) are reported by `hasOverlap` as overlapping, while
the spec's strict non-zero-measure predicate calls them non-overlapping. -/
theorem C2_counterexample :
    hasOverlap ⟨⟨1, 0⟩, ⟨2, 1⟩⟩ [⟨⟨0, 0⟩, "A", ⟨⟨0, 0⟩, ⟨1, 1⟩⟩⟩] = true ∧
    spec_overlap ⟨⟨1, 0⟩, ⟨2, 1⟩⟩ ⟨⟨0, 0⟩, ⟨1, 1⟩⟩ = false := by decide

/-- Claim C2, amended: `hasOverlap` reports a candidate as overlapping iff
some placed box meets it on both axes as closed intervals — touching edges
and corners (zero-area intersections) count as overlap. -/
theorem C2_overlap_closed_semantics (cand : box_t) (placed : List labeled_point) :
    hasOverlap cand placed = true ↔
      ∃ lp ∈ placed,
        (lp.label_box.min_corner.x ≤ cand.max_corner.x ∧
          cand.min_corner.x ≤ lp.label_box.max_corner.x) ∧
        (lp.label_box.min_corner.y ≤ cand.max_corner.y ∧
          cand.min_corner.y ≤ lp.label_box.max_corner.y) := by
  simp [hasOverlap, bgIntersects_true_iff]

/-- Claim C3: the (point, label) projection of the result of `placeLabels`
is a subsequence of the input: entries come from distinct input entries, in
input order, never invented and never duplicated. -/
theorem C3_subsequence (input : List (point_t × String)) :
    ((placeLabels input).map result_id).Sublist input := by
  have h := placeLabelsAux_sublist label_width label_height offsets [] input
  simpa using h

/-- Claim C4: while the placed set is empty, the first configured offset
(1, 1) is accepted, and in particular a singleton input is placed there;
the accepted box has one corner at (pt.x + 1, pt.y + 1), the opposite corner
shifted by (label_width, label_height), and min_corner/max_corner hold the
per-axis minimum/maximum. -/
theorem C4_first_candidate_when_empty (pt : point_t) (l : String) :
    tryOffsets label_width label_height pt l [] offsets
      = some ⟨pt, l, candidate_box label_width label_height pt (1, 1)⟩ ∧
    placeLabels [(pt, l)]
      = [⟨pt, l, candidate_box label_width label_height pt (1, 1)⟩] ∧
    (candidate_box label_width label_height pt (1, 1)).min_corner
      = ⟨pt.x + 1, pt.y + 1⟩ ∧
    (candidate_box label_width label_height pt (1, 1)).max_corner
      = ⟨pt.x + 1 + label_width, pt.y + 1 + label_height⟩ ∧
    (candidate_box label_width label_height pt (1, 1)).min_corner.x
      ≤ (candidate_box label_width label_height pt (1, 1)).max_corner.x ∧
    (candidate_box label_width label_height pt (1, 1)).min_corner.y
      ≤ (candidate_box label_width label_height pt (1, 1)).max_corner.y := by
  have hfirst : tryOffsets label_width label_height pt l [] offsets
      = some ⟨pt, l, candidate_box label_width label_height pt (1, 1)⟩ := by
    rw [offsets]
    exact tryOffsets_nil_res _ _ _ _ _ _
  refine ⟨hfirst, ?_, rfl, rfl, ?_, ?_⟩
  · show placeLabelsAux label_width label_height offsets
      (placeStep label_width label_height offsets [] (pt, l)) [] = _
    unfold placeStep
    rw [hfirst]
    rfl
  · simp [candidate_box, label_width]
  · simp [candidate_box, label_height]

/-- Claim C5: an entry none of whose candidate boxes is free of overlap with
the already-accepted result contributes nothing: the algorithm returns
normally, the entry is skipped, and the remaining input is processed exactly
as if the entry were absent. -/
theorem C5_unplaceable_dropped (w h : ℚ) (offs : List (ℚ × ℚ))
    (pre : List (point_t × String)) (entry : point_t × String)
    (suf : List (point_t × String))
    (hdrop : tryOffsets w h entry.1 entry.2 (placeLabelsWith w h offs pre) offs
      = none) :
    placeLabelsWith w h offs (pre ++ entry :: suf)
      = placeLabelsWith w h offs (pre ++ suf) := by
  unfold placeLabelsWith at hdrop ⊢
  rw [placeLabelsAux_append, placeLabelsAux_append]
  show placeLabelsAux w h offs
      (placeStep w h offs (placeLabelsAux w h offs [] pre) entry) suf = _
  unfold placeStep
  rw [hdrop]

/-- Claim C5, witness: after the four blocker points, every candidate of the
origin overlaps a placed box, so the origin entry is dropped and the trailing
entry is still processed. -/
theorem C5_witness :
    tryOffsets label_width label_height (⟨0, 0⟩ : point_t) "E"
      (placeLabelsWith label_width label_height offsets demo_blockers) offsets
      = none ∧
    placeLabelsWith label_width label_height offsets
        (demo_blockers ++ (⟨0, 0⟩, "E") :: demo_tail)
      = placeLabelsWith label_width label_height offsets
        (demo_blockers ++ demo_tail) :=
  ⟨by decide,
    C5_unplaceable_dropped label_width label_height offsets demo_blockers
      (⟨0, 0⟩, "E") demo_tail (by decide)⟩

/-- Claim C6: placements are never revised — the result for a prefix of the
input is a prefix of the result for the whole input. -/
theorem C6_prefix_monotone (P L : List (point_t × String)) (h : P <+: L) :
    placeLabels P <+: placeLabels L := by
  obtain ⟨S, rfl⟩ := h
  unfold placeLabels placeLabelsWith
  rw [placeLabelsAux_append]
  exact placeLabelsAux_pref label_width label_height offsets _ S

/-- Claim C6, witness: the one-point input is a prefix of the two-point
input, and its result is a prefix of the two-point result. -/
theorem C6_witness :
    placeLabels [(⟨0, 0⟩, "A")]
      <+: placeLabels [(⟨0, 0⟩, "A"), (⟨2, 2⟩, "B")] :=
  C6_prefix_monotone _ _ ⟨[(⟨2, 2⟩, "B")], rfl⟩

/-- Claim C7: placement is deterministic — equal inputs give identical
results, entry for entry and box for box. -/
theorem C7_deterministic (i1 i2 : List (point_t × String)) (h : i1 = i2) :
    placeLabels i1 = placeLabels i2 :=
  congrArg placeLabels h

/-- Claim C7, witness: two invocations on `Source.cpp`'s sample data agree. -/
theorem C7_witness : placeLabels sample_points = placeLabels sample_points :=
  C7_deterministic sample_points sample_points rfl

/-- If processing [A, B] places only A, then B's bottom-right candidate
overlaps A's placed top-right box, which forces B to lie at least 2 above A. -/
lemma second_dropped_y {A B : point_t × String}
    (h : (placeLabels [A, B]).map result_id = [A]) : A.1.y + 2 ≤ B.1.y := by
  have hA : placeStep label_width label_height offsets [] A
      = [⟨A.1, A.2, candidate_box label_width label_height A.1 (1, 1)⟩] := by
    unfold placeStep offsets
    rw [tryOffsets_nil_res]
    rfl
  have hform : placeLabels [A, B]
      = placeStep label_width label_height offsets
          [⟨A.1, A.2, candidate_box label_width label_height A.1 (1, 1)⟩] B := by
    show placeLabelsAux label_width label_height offsets
        (placeStep label_width label_height offsets [] A) [B] = _
    rw [hA]
    rfl
  rw [hform] at h
  cases htry : tryOffsets label_width label_height B.1 B.2
      [⟨A.1, A.2, candidate_box label_width label_height A.1 (1, 1)⟩] offsets with
  | some lpB =>
    unfold placeStep at h
    rw [htry] at h
    simp [result_id] at h
  | none =>
    have hov := tryOffsets_eq_none_iff.mp htry (1, -1 - label_height)
      (by simp [offsets])
    rw [hasOverlap] at hov
    simp only [List.any_cons, List.any_nil, Bool.or_false] at hov
    rw [bgIntersects_true_iff] at hov
    have hkey := hov.2.1
    simp only [candidate_box, label_height] at hkey
    linarith

/-- Claim C8, counterexample: no pair of entries exists for which each input
order places the first entry and drops the other. A first entry is always
placed at its top-right candidate, and blocking all four candidates of the
second entry forces the second point to lie 2 above the first on the y axis —
which cannot hold in both directions. -/
theorem C8_counterexample :
    ¬ ∃ (A B : point_t × String),
      (placeLabels [A, B]).map result_id = [A] ∧
      (placeLabels [B, A]).map result_id = [B] := by
  rintro ⟨A, B, h1, h2⟩
  have hab := second_dropped_y h1
  have hba := second_dropped_y h2
  linarith

/-- Claim C8, amended: input order is still observable. For A = ((0,0),"A")
and B = ((2,2),"B"): in order [A, B] the entry A is placed and B is dropped
(all four of B's candidates touch or overlap A's box), while in order [B, A]
both are placed — B first, at its top-right candidate. Which points receive
labels depends on the input order, but a full flip in which each order drops
the other point is impossible for this configuration. -/
theorem C8_amended_order_sensitivity :
    (placeLabels [(⟨0, 0⟩, "A"), (⟨2, 2⟩, "B")]).map result_id
      = [(⟨0, 0⟩, "A")] ∧
    (placeLabels [(⟨2, 2⟩, "B"), (⟨0, 0⟩, "A")]).map result_id
      = [(⟨2, 2⟩, "B"), (⟨0, 0⟩, "A")] := by decide

/-- Claim C9, counterexample: the code performs no configuration validation.
Substituting a non-positive label width still produces a placement (no
precondition violation stops the work), and an empty offset sequence makes
the function silently return the empty result instead of reporting an error. -/
theorem C9_counterexample :
    (placeLabelsWith (-1) 2 offsets [(⟨0, 0⟩, "A")]).length = 1 ∧
    placeLabelsWith label_width label_height [] [(⟨0, 0⟩, "A")] = [] := by decide

/-- Claim C9, amended: `placeLabels` never validates its configuration — the
configuration is hard-coded inside the function body and happens to be
well-formed (positive sizes, four offsets), and with an empty offset
sequence the algorithm proceeds normally, silently dropping every entry. -/
theorem C9_no_validation :
    (∀ input, placeLabels input
      = placeLabelsWith label_width label_height offsets input) ∧
    0 < label_width ∧ 0 < label_height ∧ offsets.length = 4 ∧
    (∀ (w h : ℚ) (input : List (point_t × String)),
      placeLabelsWith w h [] input = []) := by
  refine ⟨fun _ => rfl, by norm_num [label_width], by norm_num [label_height],
    rfl, ?_⟩
  intro w h input
  exact placeLabelsAux_nil_offs w h [] input

/-- Claim C10: every placed box has exactly the configured label size —
6 × 2 for `Source.cpp`'s `placeLabels` and 0.4 × 0.2 for `main.cpp`'s — and
min_corner is the bottom-left corner (componentwise below max_corner). -/
theorem C10_uniform_box_size :
    (∀ input, ∀ lp ∈ placeLabels input,
      lp.label_box.max_corner.x - lp.label_box.min_corner.x = 6 ∧
      lp.label_box.max_corner.y - lp.label_box.min_corner.y = 2 ∧
      lp.label_box.min_corner.x ≤ lp.label_box.max_corner.x ∧
      lp.label_box.min_corner.y ≤ lp.label_box.max_corner.y) ∧
    (∀ input, ∀ lp ∈ main_placeLabels input,
      lp.label_box.max_corner.x - lp.label_box.min_corner.x = 2/5 ∧
      lp.label_box.max_corner.y - lp.label_box.min_corner.y = 1/5 ∧
      lp.label_box.min_corner.x ≤ lp.label_box.max_corner.x ∧
      lp.label_box.min_corner.y ≤ lp.label_box.max_corner.y) := by
  constructor
  · intro input lp hmem
    obtain ⟨hx, hy⟩ := box_size_of_mem hmem
    rw [label_width] at hx
    rw [label_height] at hy
    exact ⟨hx, hy, by linarith, by linarith⟩
  · intro input lp hmem
    obtain ⟨hx, hy⟩ := box_size_of_mem hmem
    rw [main_label_width] at hx
    rw [main_label_height] at hy
    refine ⟨hx, hy, by linarith, by linarith⟩

/-- Claim C10, witness: the single point (5, 5) labelled "P" is placed with
box corners (6, 6) and (12, 8), of size exactly 6 × 2. -/
theorem C10_witness :
    lpP ∈ placeLabels [(⟨5, 5⟩, "P")] ∧
    (lpP.label_box.max_corner.x - lpP.label_box.min_corner.x = 6 ∧
      lpP.label_box.max_corner.y - lpP.label_box.min_corner.y = 2 ∧
      lpP.label_box.min_corner.x ≤ lpP.label_box.max_corner.x ∧
      lpP.label_box.min_corner.y ≤ lpP.label_box.max_corner.y) :=
  ⟨by decide, C10_uniform_box_size.1 [(⟨5, 5⟩, "P")] lpP (by decide)⟩

end Claims
